import Mathlib

/-!
Shallow embedding of the Martian Chess rule engine of this repository.

The embedding follows the library variant (src/lib.rs together with
src/pieces.rs and src/board.rs) line by line; the standalone variant in
src/main.rs agrees with it except where noted (its promotion pairing table
and its clock starting value), and its divergent promotion table is embedded
separately as main_promotion_result.

Modelling conventions:
* usize, u32 and u8 values are modelled as Nat and i32 as Int.  The casts
  `as i32` and `as usize` performed by the source are modelled exactly by
  i32ofUsize and usizeOfI32 (wrap-around).  Arithmetic overflow of the u8
  scores and of the u32 turn counter is not modelled (the total capture
  value of a game is bounded by 36, far below 255).
* A Rust index-out-of-bounds panic is modelled by Option.none:
  Board.get_piece and Board.set_piece return none exactly when the flat
  index falls outside the backing vector, and every caller propagates none.
* The while loop of collision_check is modelled with fuel 100; fuel
  exhaustion also yields none.  For on-board moves that passed the shape
  check the walk is proved to finish within the fuel.
-/

namespace MartianChess

/-- The three piece ranks, src/pieces.rs (Pawn = Low, Drone = Mid, Queen = High). -/
inductive Piece where
  | Pawn
  | Drone
  | Queen
deriving DecidableEq, Repr

/-- Result type mirroring Rust Result with a static string error. -/
inductive RustResult (α : Type) where
  | ok : α → RustResult α
  | err : String → RustResult α
deriving DecidableEq, Repr

/-- The value of the Rust cast `n as i32` for a usize n. -/
def i32ofUsize (n : Nat) : Int :=
  if n % 2 ^ 32 < 2 ^ 31 then ((n % 2 ^ 32 : Nat) : Int) else ((n % 2 ^ 32 : Nat) : Int) - 2 ^ 32

/-- The value of the Rust cast `v as usize` for an i32 value v. -/
def usizeOfI32 (v : Int) : Nat :=
  (v % 2 ^ 64).toNat

/-- Board position, src/board.rs (row and col are usize). -/
structure Position where
  row : Nat
  col : Nat
deriving DecidableEq, Repr

/-- A candidate move, src/lib.rs. -/
structure Move where
  src : Position
  dst : Position
deriving DecidableEq, Repr

/-- The board, src/board.rs: a flat vector indexed by cols * row + col. -/
structure Board where
  data : List (Option Piece)
  rows : Nat
  cols : Nat
deriving DecidableEq, Repr

/-- Board::get_piece.  The source indexes the vector directly; the outer
none models the index-out-of-bounds panic. -/
def Board.get_piece (b : Board) (p : Position) : Option (Option Piece) :=
  b.data.get? (b.cols * p.row + p.col)

/-- Board::get_piece_mut followed by assignment; none models the
index-out-of-bounds panic. -/
def Board.set_piece (b : Board) (p : Position) (v : Option Piece) : Option Board :=
  if b.cols * p.row + p.col < b.data.length then
    some { b with data := b.data.set (b.cols * p.row + p.col) v }
  else
    none

/-- The whole game state, src/lib.rs struct MartianChess. -/
structure GameState where
  board : Board
  turn : Nat
  score1 : Nat
  score2 : Nat
  prev_move : Option Move
  clock : Int
deriving DecidableEq, Repr

/-- Well-formedness of a state as produced by MartianChess::new:
an 8 by 4 board backed by a 32-cell vector. -/
def GameState.WF (s : GameState) : Prop :=
  s.board.cols = 4 ∧ s.board.data.length = 32

/-- MartianChess::get_zone, src/lib.rs. -/
def get_zone (p : Position) : Nat :=
  if p.row ≤ 3 then 0 else 1

/-- Piece::points, src/pieces.rs. -/
def Piece.points : Piece → Nat
  | .Pawn => 1
  | .Drone => 2
  | .Queen => 3

/-- Piece::promote, src/pieces.rs (library variant of the promotion
pairing). -/
def Piece.promote : Piece → Piece → RustResult Piece
  | .Pawn, .Pawn => .ok .Pawn
  | .Pawn, .Drone => .ok .Queen
  | .Pawn, .Queen => .err "Cannot promote Queen."
  | .Drone, .Pawn => .ok .Queen
  | .Drone, .Drone => .err "Cannot promote Drone with a Drone"
  | .Drone, .Queen => .err "Cannot promote Queen."
  | .Queen, _ => .err "Cannot promote Queen."

/-- The promotion pairing used by the standalone variant src/main.rs
(its can_promote computes new_piece by this table, and its move_piece
places the same results). -/
def main_promotion_result : Piece → Piece → RustResult Piece
  | .Queen, _ => .err "Cannot promote queen"
  | _, .Queen => .err "Cannot promote queen"
  | .Pawn, .Pawn => .ok .Drone
  | .Pawn, .Drone => .ok .Queen
  | .Drone, .Pawn => .ok .Queen
  | .Drone, .Drone => .err "Tried to promote Drone with Drone"

/-- Piece::validate_move, src/pieces.rs. -/
def Piece.validate_move (p : Piece) (src dst : Position) : RustResult Unit :=
  match p with
  | .Pawn =>
    if (i32ofUsize src.row - i32ofUsize dst.row).natAbs ≠ 1 ∨
        (i32ofUsize src.col - i32ofUsize dst.col).natAbs ≠ 1 then
      .err "Pawns must move exactly one square diagonally"
    else
      .ok ()
  | .Drone =>
    if (i32ofUsize src.row - i32ofUsize dst.row).natAbs = 0 then
      if (i32ofUsize src.col - i32ofUsize dst.col).natAbs > 2 then
        .err "Drones may move only 1 or 2 squares orthogonally"
      else
        .ok ()
    else if (i32ofUsize src.col - i32ofUsize dst.col).natAbs = 0 then
      if (i32ofUsize src.row - i32ofUsize dst.row).natAbs > 2 then
        .err "Drones may move only 1 or 2 squares orthogonally 1"
      else
        .ok ()
    else
      .err "Drones may move only 1 or 2 squares orthogonally"
  | .Queen =>
    if ¬(i32ofUsize dst.row - i32ofUsize src.row = 0 ∨
          i32ofUsize dst.col - i32ofUsize src.col = 0 ∨
          (i32ofUsize dst.row - i32ofUsize src.row).natAbs =
            (i32ofUsize dst.col - i32ofUsize src.col).natAbs) then
      .err "Queens may only move along a straight line"
    else
      .ok ()

/-- One step of the collision_check while loop: advance the cursor by the
signum deltas, with the exact usize-via-i32 casts of the source. -/
def walk_step (n : Position) (dx dy : Int) : Position :=
  { row := usizeOfI32 (i32ofUsize n.row + dx), col := usizeOfI32 (i32ofUsize n.col + dy) }

/-- The while loop of MartianChess::collision_check, with fuel.  none models
an index panic or a walk that does not reach dst within the fuel. -/
def collision_walk (b : Board) (dst : Position) (dx dy : Int) :
    Nat → Position → Option (RustResult Unit)
  | 0, _ => none
  | fuel + 1, n =>
    if n = dst then
      some (.ok ())
    else
      match b.get_piece n with
      | none => none
      | some (some _) => some (.err "Move blocked by")
      | some none => collision_walk b dst dx dy fuel (walk_step n dx dy)

/-- MartianChess::collision_check, src/lib.rs. -/
def collision_check (b : Board) (m : Move) : Option (RustResult Unit) :=
  let dx := (i32ofUsize m.dst.row - i32ofUsize m.src.row).sign
  let dy := (i32ofUsize m.dst.col - i32ofUsize m.src.col).sign
  collision_walk b m.dst dx dy 100 (walk_step m.src dx dy)

/-- Count of cells holding rank q among the n cells starting at flat index
lo, as done by the `for i in lo..hi` loops of can_promote. -/
def countRange (b : Board) (lo n : Nat) (q : Piece) : Nat :=
  (List.range n).countP (fun j => decide (b.data.get? (lo + j) = some (some q)))

/-- MartianChess::can_promote, src/lib.rs.  The guard on the data length
models the panic the direct `self.board.data[i]` loops would raise on a
short vector. -/
def can_promote (s : GameState) (m : Move) : Option (RustResult Piece) :=
  match s.board.get_piece m.src with
  | none => none
  | some none => some (.err "No source piece to promote")
  | some (some src_piece) =>
    match s.board.get_piece m.dst with
    | none => none
    | some none => some (.err "No destination piece to promote")
    | some (some dst_piece) =>
      match src_piece.promote dst_piece with
      | .err e => some (.err e)
      | .ok new_piece =>
        if s.board.data.length < 32 then
          none
        else if countRange s.board 0 32 new_piece > 5 then
          some (.err "Cannot have more than 6 of one piece on the board")
        else if (if s.turn % 2 = 0 then
                    countRange s.board 0 16 new_piece
                  else
                    countRange s.board 16 16 new_piece) > 1 then
          some (.err "Cannot promote if piece type already in your zone")
        else
          some (.ok new_piece)

/-- The undo test of move_piece: the candidate exactly reverses the
previous move. -/
def undoCheck (prev : Option Move) (m : Move) : Bool :=
  match prev with
  | some p => decide (m.src = p.dst) && decide (m.dst = p.src)
  | none => false

/-- The shared tail of every accepted board move: clear the source cell,
increment the turn, record the move. -/
def move_tail (s : GameState) (m : Move) : Option (RustResult Unit × GameState) :=
  match s.board.set_piece m.src none with
  | none => none
  | some b =>
    some (.ok (), { s with board := b, turn := s.turn + 1, prev_move := some m })

/-- MartianChess::move_piece, src/lib.rs, translated branch for branch.
The result pairs the returned Result with the post-call state (the source
mutates self in place); none models a panic. -/
def move_piece (s : GameState) (m : Move) : Option (RustResult Unit × GameState) :=
  if m.src.row = 32 then
    if s.clock > 0 then
      some (.err "Clock already started", s)
    else
      some (.ok (), { s with clock := 8 })
  else
    match s.board.get_piece m.src with
    | none => none
    | some none => some (.err "No piece at source position", s)
    | some (some src_piece) =>
      if s.turn % 2 ≠ get_zone m.src then
        some (.err "Source Position is not in Player zone of control", s)
      else if m.src = m.dst then
        some (.err "Must move piece to location different from starting location", s)
      else if undoCheck s.prev_move m then
        some (.err "Cannot use your move to undo previous move", s)
      else
        match src_piece.validate_move m.src m.dst with
        | .err e => some (.err e, s)
        | .ok () =>
          match collision_check s.board m with
          | none => none
          | some (.err e) => some (.err e, s)
          | some (.ok ()) =>
            if s.turn % 2 ≠ get_zone m.dst then
              match s.board.get_piece m.dst with
              | none => none
              | some dstCell =>
                let s1 := if s.clock > 0 ∧ dstCell.isSome then { s with clock := 8 } else s
                let s2 :=
                  match dstCell with
                  | some p =>
                    if s1.turn % 2 = 0 then
                      { s1 with score1 := s1.score1 + p.points }
                    else
                      { s1 with score2 := s1.score2 + p.points }
                  | none => s1
                match s2.board.set_piece m.dst (some src_piece) with
                | none => none
                | some b2 => move_tail { s2 with board := b2 } m
            else
              match s.board.get_piece m.dst with
              | none => none
              | some none =>
                match s.board.set_piece m.dst (some src_piece) with
                | none => none
                | some b2 => move_tail { s with board := b2 } m
              | some (some _) =>
                match can_promote s m with
                | none => none
                | some (.err e) => some (.err e, s)
                | some (.ok new_piece) =>
                  match s.board.set_piece m.dst (some new_piece) with
                  | none => none
                  | some b2 => move_tail { s with board := b2 } m

/-- The clock bookkeeping the play loop performs after an accepted move,
src/lib.rs lines 326-330. -/
def after_accepted (s : GameState) : GameState :=
  if s.clock > 0 then { s with clock := s.clock - 1 } else s

/-- The initial placement of MartianChess::new, src/lib.rs (row-major,
4 columns per row). -/
def initial_state : GameState :=
  { board :=
      { rows := 8, cols := 4,
        data :=
          [some .Queen, some .Queen, some .Drone, none,
           some .Queen, some .Drone, some .Pawn, none,
           some .Drone, some .Pawn, some .Pawn, none,
           none, none, none, none,
           none, none, none, none,
           none, some .Pawn, some .Pawn, some .Drone,
           none, some .Pawn, some .Drone, some .Queen,
           none, some .Drone, some .Queen, some .Queen] },
    turn := 0, score1 := 0, score2 := 0, prev_move := none, clock := -1 }

/-- The clock-start pseudo-move produced by get_move for the clk token. -/
def clk_move : Move :=
  { src := { row := 32, col := 32 }, dst := { row := 32, col := 32 } }

example : initial_state.WF := by constructor <;> rfl

example :
    move_piece initial_state { src := { row := 2, col := 1 }, dst := { row := 3, col := 0 } } =
      some (.ok (),
        { initial_state with
            board := { initial_state.board with
              data := ((initial_state.board.data.set 12 (some .Pawn)).set 9 none) },
            turn := 1,
            prev_move := some { src := { row := 2, col := 1 }, dst := { row := 3, col := 0 } } }) := by
  decide

/-- A reachable-shaped state used to exhibit the promotion zone-count
behaviour: one Queen already sits in zone 0 (index 0), a Pawn at (2,1)
(index 9) and a Drone at (3,2) (index 14); player 2 keeps a Pawn at
index 21. -/
def c5_state : GameState :=
  { board :=
      { rows := 8, cols := 4,
        data :=
          [some .Queen, none, none, none,
           none, none, none, none,
           none, some .Pawn, none, none,
           none, none, some .Drone, none,
           none, none, none, none,
           none, some .Pawn, none, none,
           none, none, none, none,
           none, none, none, none] },
    turn := 0, score1 := 0, score2 := 0, prev_move := none, clock := -1 }

/-- The promoting move for c5_state: the Pawn at (2,1) steps diagonally
onto the Drone at (3,2), promoting to a Queen inside zone 0. -/
def c5_move : Move :=
  { src := { row := 2, col := 1 }, dst := { row := 3, col := 2 } }

/-- The state c5_state after the accepted promotion. -/
def c5_after : GameState :=
  { c5_state with
      board := { c5_state.board with
        data := ((c5_state.board.data.set 14 (some .Queen)).set 9 none) },
      turn := 1, prev_move := some c5_move }

/-- A state with a capture available: player 1 Pawn at (3,2) (index 14),
player 2 Drone at (4,3) (index 19), clock ticking at 5. -/
def c9_state : GameState :=
  { board :=
      { rows := 8, cols := 4,
        data :=
          [none, none, none, none,
           none, none, none, none,
           none, none, none, none,
           none, none, some .Pawn, none,
           none, none, none, some .Drone,
           none, none, none, none,
           none, none, none, none,
           none, none, none, none] },
    turn := 0, score1 := 0, score2 := 0, prev_move := none, clock := 5 }

/-- The capturing move for c9_state. -/
def c9_move : Move :=
  { src := { row := 3, col := 2 }, dst := { row := 4, col := 3 } }

section Lemmas

theorem i32ofUsize_small {n : Nat} (h : n < 2 ^ 31) : i32ofUsize n = (n : Int) := by
  unfold i32ofUsize
  rw [Nat.mod_eq_of_lt (by omega), if_pos h]

theorem usizeOfI32_of_nonneg_lt {v : Int} (h0 : 0 ≤ v) (h1 : v < 2 ^ 64) :
    (usizeOfI32 v : Int) = v := by
  unfold usizeOfI32
  rw [Int.emod_eq_of_lt h0 h1, Int.toNat_of_nonneg h0]

/-- Distinct on-board positions index distinct cells of the flat vector. -/
theorem pos_index_inj {p q : Position} (hp : p.row < 8 ∧ p.col < 4)
    (hq : q.row < 8 ∧ q.col < 4) (h : 4 * p.row + p.col = 4 * q.row + q.col) : p = q := by
  obtain ⟨hp1, hp2⟩ := hp
  obtain ⟨hq1, hq2⟩ := hq
  have hr : p.row = q.row := by omega
  have hc : p.col = q.col := by omega
  cases p
  cases q
  simp_all

theorem index_lt_32 {r c : Nat} (hr : r < 8) (hc : c < 4) : 4 * r + c < 32 := by omega

/-- Advancing one coordinate one signed step toward a target on the board
stays on the board and decreases the remaining step count by one. -/
theorem step_coord {c t : Nat} {d : Int} {k B : Nat}
    (hc : c < B) (ht : t < B) (hB : B ≤ 8)
    (hd1 : -1 ≤ d) (hd2 : d ≤ 1)
    (heq : (t : Int) = (c : Int) + (k + 1) * d) :
    usizeOfI32 (i32ofUsize c + d) < B ∧
      (t : Int) = (usizeOfI32 (i32ofUsize c + d) : Int) + (k : Int) * d := by
  have hc32 : i32ofUsize c = (c : Int) := i32ofUsize_small (by omega)
  rw [hc32]
  have hd : d = -1 ∨ d = 0 ∨ d = 1 := by omega
  rcases hd with h | h | h <;> subst h
  · have hge : (1 : Int) ≤ (c : Int) := by
      have := heq
      omega
    have h0 : (0 : Int) ≤ (c : Int) + -1 := by omega
    have h1 : (c : Int) + -1 < 2 ^ 64 := by omega
    have := usizeOfI32_of_nonneg_lt h0 h1
    constructor
    · omega
    · omega
  · have h0 : (0 : Int) ≤ (c : Int) + 0 := by omega
    have h1 : (c : Int) + 0 < 2 ^ 64 := by omega
    have := usizeOfI32_of_nonneg_lt h0 h1
    constructor
    · omega
    · omega
  · have h0 : (0 : Int) ≤ (c : Int) + 1 := by omega
    have h1 : (c : Int) + 1 < 2 ^ 64 := by omega
    have := usizeOfI32_of_nonneg_lt h0 h1
    constructor
    · omega
    · omega

theorem sign_bounds (v : Int) : -1 ≤ v.sign ∧ v.sign ≤ 1 := by
  rcases lt_trichotomy v 0 with h | h | h
  · rw [Int.sign_eq_neg_one_iff_neg.mpr h]; omega
  · rw [h, Int.sign_zero]; omega
  · rw [Int.sign_eq_one_iff_pos.mpr h]; omega

/-- A value is its sign times its absolute value, stated in the form the
walk invariant needs. -/
theorem eq_add_mul_sign {a b : Int} {d : Nat} (h : (b - a).natAbs = d ∨ b = a) :
    b = a + (d : Int) * (b - a).sign := by
  rcases h with h | h
  · rcases lt_trichotomy (b - a) 0 with h1 | h1 | h1
    · rw [Int.sign_eq_neg_one_iff_neg.mpr h1]; omega
    · rw [h1, Int.sign_zero]; omega
    · rw [Int.sign_eq_one_iff_pos.mpr h1]; omega
  · have h1 : b - a = 0 := by omega
    rw [h1, Int.sign_zero]; omega

/-- The collision walk returns a value (never exhausts its fuel, never
reads out of bounds) whenever the cursor lies on the 8 by 4 board and is k
signed steps away from an on-board destination, k below the fuel. -/
theorem collision_walk_total (b : Board) (dst : Position) (dx dy : Int)
    (hb4 : b.cols = 4) (hb32 : b.data.length = 32)
    (hdr : dst.row < 8) (hdc : dst.col < 4)
    (hdx1 : -1 ≤ dx) (hdx2 : dx ≤ 1) (hdy1 : -1 ≤ dy) (hdy2 : dy ≤ 1) :
    ∀ (k fuel : Nat) (n : Position), k < fuel → n.row < 8 → n.col < 4 →
      (dst.row : Int) = (n.row : Int) + (k : Int) * dx →
      (dst.col : Int) = (n.col : Int) + (k : Int) * dy →
      (collision_walk b dst dx dy fuel n).isSome := by
  intro k
  induction k with
  | zero =>
    intro fuel n hfuel hnr hnc hrow hcol
    obtain ⟨f, rfl⟩ : ∃ f, fuel = f + 1 := ⟨fuel - 1, by omega⟩
    have hr : n.row = dst.row := by omega
    have hc : n.col = dst.col := by omega
    have hn : n = dst := by cases n; cases dst; simp_all
    simp [collision_walk, hn]
  | succ k ih =>
    intro fuel n hfuel hnr hnc hrow hcol
    obtain ⟨f, rfl⟩ : ∃ f, fuel = f + 1 := ⟨fuel - 1, by omega⟩
    by_cases hn : n = dst
    · simp [collision_walk, hn]
    · have hidx : b.cols * n.row + n.col < b.data.length := by
        rw [hb4, hb32]; exact index_lt_32 hnr hnc
      obtain ⟨cell, hcell⟩ : ∃ c, b.data.get? (b.cols * n.row + n.col) = some c :=
        ⟨_, List.get?_eq_get hidx⟩
      rw [List.get?_eq_getElem?] at hcell
      have hstep_row := step_coord (B := 8) (k := k) hnr hdr (by omega) hdx1 hdx2
        (by exact_mod_cast hrow)
      have hstep_col := step_coord (B := 4) (k := k) hnc hdc (by omega) hdy1 hdy2
        (by exact_mod_cast hcol)
      cases cell with
      | some p =>
        simp [collision_walk, hn, Board.get_piece, List.get?_eq_getElem?, hcell]
      | none =>
        have hrec := ih f (walk_step n dx dy) (by omega) hstep_row.1 hstep_col.1
          hstep_row.2 hstep_col.2
        simpa [collision_walk, hn, Board.get_piece, List.get?_eq_getElem?, hcell,
          walk_step] using hrec

theorem pos_ne_coords {p q : Position} (h : p ≠ q) : p.row ≠ q.row ∨ p.col ≠ q.col := by
  by_contra hc
  push_neg at hc
  exact h (by cases p; cases q; simp_all)

/-- A move that passes the shape check of its piece is aligned: the
destination is a positive whole number of signed unit steps from the
source, at most 7 of them. -/
theorem validate_aligned {pc : Piece} {src dst : Position}
    (hsr : src.row < 8) (hsc : src.col < 4) (hdr : dst.row < 8) (hdc : dst.col < 4)
    (hne : src ≠ dst)
    (hv : pc.validate_move src dst = .ok ()) :
    ∃ d : Nat, 1 ≤ d ∧ d ≤ 7 ∧
      (dst.row : Int) = (src.row : Int) +
        (d : Int) * ((dst.row : Int) - (src.row : Int)).sign ∧
      (dst.col : Int) = (src.col : Int) +
        (d : Int) * ((dst.col : Int) - (src.col : Int)).sign := by
  have hne' := pos_ne_coords hne
  have e1 : i32ofUsize src.row = (src.row : Int) := i32ofUsize_small (by omega)
  have e2 : i32ofUsize src.col = (src.col : Int) := i32ofUsize_small (by omega)
  have e3 : i32ofUsize dst.row = (dst.row : Int) := i32ofUsize_small (by omega)
  have e4 : i32ofUsize dst.col = (dst.col : Int) := i32ofUsize_small (by omega)
  cases pc with
  | Pawn =>
    simp only [Piece.validate_move, e1, e2, e3, e4] at hv
    split at hv
    · simp at hv
    · rename_i hcond
      push_neg at hcond
      refine ⟨1, by omega, by omega, eq_add_mul_sign (Or.inl (by omega)),
        eq_add_mul_sign (Or.inl (by omega))⟩
  | Drone =>
    simp only [Piece.validate_move, e1, e2, e3, e4] at hv
    split at hv
    · rename_i hr0
      split at hv
      · simp at hv
      · rename_i hc2
        refine ⟨((dst.col : Int) - (src.col : Int)).natAbs, by omega, by omega,
          eq_add_mul_sign (Or.inr (by omega)), eq_add_mul_sign (Or.inl rfl)⟩
    · rename_i hr0
      split at hv
      · rename_i hc0
        split at hv
        · simp at hv
        · rename_i hr2
          refine ⟨((dst.row : Int) - (src.row : Int)).natAbs, by omega, by omega,
            eq_add_mul_sign (Or.inl rfl), eq_add_mul_sign (Or.inr (by omega))⟩
      · simp at hv
  | Queen =>
    simp only [Piece.validate_move, e1, e2, e3, e4] at hv
    split at hv
    · simp at hv
    · rename_i hcond
      push_neg at hcond
      rcases hcond with hr0 | hc0 | habs
      · refine ⟨((dst.col : Int) - (src.col : Int)).natAbs, by omega, by omega,
          eq_add_mul_sign (Or.inr (by omega)), eq_add_mul_sign (Or.inl rfl)⟩
      · refine ⟨((dst.row : Int) - (src.row : Int)).natAbs, by omega, by omega,
          eq_add_mul_sign (Or.inl rfl), eq_add_mul_sign (Or.inr (by omega))⟩
      · by_cases hz : (dst.row : Int) - (src.row : Int) = 0
        · refine ⟨((dst.col : Int) - (src.col : Int)).natAbs, by omega, by omega,
            eq_add_mul_sign (Or.inr (by omega)), eq_add_mul_sign (Or.inl rfl)⟩
        · refine ⟨((dst.row : Int) - (src.row : Int)).natAbs, by omega, by omega,
            eq_add_mul_sign (Or.inl rfl), eq_add_mul_sign (Or.inl (by omega))⟩

/-- The path check never panics and never exhausts its fuel for a move
between on-board cells whose shape check passed. -/
theorem collision_check_isSome {b : Board} {m : Move} {pc : Piece}
    (hb4 : b.cols = 4) (hb32 : b.data.length = 32)
    (hsr : m.src.row < 8) (hsc : m.src.col < 4) (hdr : m.dst.row < 8) (hdc : m.dst.col < 4)
    (hne : m.src ≠ m.dst)
    (hv : pc.validate_move m.src m.dst = .ok ()) :
    (collision_check b m).isSome := by
  obtain ⟨d, hd1, hd7, hrow, hcol⟩ := validate_aligned hsr hsc hdr hdc hne hv
  unfold collision_check
  rw [i32ofUsize_small (show m.src.row < 2 ^ 31 by omega),
      i32ofUsize_small (show m.src.col < 2 ^ 31 by omega),
      i32ofUsize_small (show m.dst.row < 2 ^ 31 by omega),
      i32ofUsize_small (show m.dst.col < 2 ^ 31 by omega)]
  have hcast : ((d - 1 : Nat) : Int) + 1 = (d : Int) := by omega
  have hstep_row := step_coord (B := 8) (k := d - 1)
    (d := ((m.dst.row : Int) - (m.src.row : Int)).sign) hsr hdr (by omega)
    (sign_bounds _).1 (sign_bounds _).2 (by rw [hcast]; exact hrow)
  have hstep_col := step_coord (B := 4) (k := d - 1)
    (d := ((m.dst.col : Int) - (m.src.col : Int)).sign) hsc hdc (by omega)
    (sign_bounds _).1 (sign_bounds _).2 (by rw [hcast]; exact hcol)
  exact collision_walk_total b m.dst _ _ hb4 hb32 hdr hdc
    (sign_bounds _).1 (sign_bounds _).2 (sign_bounds _).1 (sign_bounds _).2
    (d - 1) 100 _ (by omega) hstep_row.1 hstep_col.1 hstep_row.2 hstep_col.2

end Lemmas

/-- C10: Frame property of the clock-start pseudo-move: a successful
clock-start modifies only the clock field; the board, both scores and the
previous move are unchanged, and the turn counter is not incremented, so
the same player is still active and the sentinel move is never recorded as
the previous move for the undo check. -/
theorem C10_clock_start_frame (s : GameState) (m : Move)
    (hsent : m.src.row = 32) (hclk : ¬s.clock > 0) :
    move_piece s m = some (.ok (), { s with clock := 8 }) ∧
      ({ s with clock := 8 } : GameState).board = s.board ∧
      ({ s with clock := 8 } : GameState).score1 = s.score1 ∧
      ({ s with clock := 8 } : GameState).score2 = s.score2 ∧
      ({ s with clock := 8 } : GameState).prev_move = s.prev_move ∧
      ({ s with clock := 8 } : GameState).turn = s.turn := by
  unfold move_piece
  rw [if_pos hsent, if_neg hclk]
  exact ⟨rfl, rfl, rfl, rfl, rfl, rfl⟩

/-- Witness for C10 at the initial state and the clk pseudo-move. -/
theorem C10_witness :
    move_piece initial_state clk_move = some (.ok (), { initial_state with clock := 8 }) := by
  exact (C10_clock_start_frame initial_state clk_move rfl (by decide)).1

/-- C4 counterexample: the claim says a clock-start request fails for
every clock other than -1, in particular for clock = 0; but move_piece
only rejects the sentinel when clock is strictly positive, so at clock = 0
the clock-start succeeds and sets the clock to 8. -/
theorem C4_counterexample :
    move_piece { initial_state with clock := 0 } clk_move =
        some (.ok (), { initial_state with clock := 8 }) ∧
      (0 : Int) ≠ -1 := by
  constructor
  · decide
  · decide

/-- C4 amended: a sentinel-source move succeeds exactly when clock ≤ 0
(not merely when clock = -1): for clock > 0 move_piece returns the
"Clock already started" error with the whole state, clock included,
unchanged; for clock ≤ 0 it succeeds and sets clock to 8. -/
theorem C4_clock_start_iff_nonpositive (s : GameState) (m : Move)
    (hsent : m.src.row = 32) :
    (s.clock > 0 → move_piece s m = some (.err "Clock already started", s)) ∧
      (¬s.clock > 0 → move_piece s m = some (.ok (), { s with clock := 8 })) := by
  constructor
  · intro h
    unfold move_piece
    rw [if_pos hsent, if_pos h]
  · intro h
    unfold move_piece
    rw [if_pos hsent, if_neg h]

/-- Witness for C4 amended: with the clock already ticking at 5 the
sentinel move is rejected and the state is unchanged. -/
theorem C4_witness :
    move_piece { initial_state with clock := 5 } clk_move =
      some (.err "Clock already started", { initial_state with clock := 5 }) := by
  exact (C4_clock_start_iff_nonpositive { initial_state with clock := 5 } clk_move rfl).1
    (by decide)

/-- C3 counterexample: the claim says the per-move clock decrement of the
play loop does not apply to the clock-start pseudo-move, leaving the clock
at its configured starting value 8; in the code the decrement applies to
every accepted move, the clock-start included, so after full processing
the clock is 7, not 8. -/
theorem C3_counterexample :
    move_piece initial_state clk_move = some (.ok (), { initial_state with clock := 8 }) ∧
      after_accepted { initial_state with clock := 8 } = { initial_state with clock := 7 } ∧
      ({ initial_state with clock := 7 } : GameState).clock ≠ 8 := by
  refine ⟨by decide, by decide, by decide⟩

/-- C3 amended: after an accepted clock-start pseudo-move is fully
processed, including the play-loop clock bookkeeping, the clock equals 7:
the configured starting value 8 minus the per-move decrement, which does
apply to the clock-start pseudo-move as well. -/
theorem C3_clock_start_after_processing (s : GameState) (m : Move)
    (hsent : m.src.row = 32) (hclk : s.clock = -1) :
    move_piece s m = some (.ok (), { s with clock := 8 }) ∧
      after_accepted { s with clock := 8 } = { s with clock := 7 } := by
  constructor
  · unfold move_piece
    rw [if_pos hsent, if_neg (by omega)]
  · unfold after_accepted
    norm_num

/-- Witness for C3 amended at the initial state. -/
theorem C3_witness :
    move_piece initial_state clk_move = some (.ok (), { initial_state with clock := 8 }) ∧
      after_accepted { initial_state with clock := 8 } = { initial_state with clock := 7 } := by
  exact C3_clock_start_after_processing initial_state clk_move rfl rfl

theorem countP_range_mono (p p' : Nat → Bool) (n : Nat) (h : ∀ j, p j = true → p' j = true) :
    (List.range n).countP p ≤ (List.range n).countP p' :=
  List.countP_mono_left (fun a _ ha => h a ha)

/-- Two predicates that agree away from a single index count within one of
each other over any initial segment of the naturals. -/
theorem countP_range_agree_except (p p' : Nat → Bool) (j0 : Nat) :
    ∀ n, (∀ j, j ≠ j0 → p j = p' j) →
      (List.range n).countP p ≤ (List.range n).countP p' + 1 := by
  intro n h
  induction n with
  | zero => simp
  | succ n ih =>
    rw [List.range_succ, List.countP_append, List.countP_append]
    have hsingle : ∀ q : Nat → Bool, [n].countP q ≤ 1 := by
      intro q
      simp only [List.countP_cons, List.countP_nil]
      split <;> omega
    by_cases hn : n = j0
    · have hagree : (List.range n).countP p = (List.range n).countP p' := by
        apply List.countP_congr
        intro a ha
        have : a < n := List.mem_range.mp ha
        rw [h a (by omega)]
      have := hsingle p
      omega
    · have hlast : [n].countP p = [n].countP p' := by
        simp only [List.countP_cons, List.countP_nil, h n hn]
      omega

/-- Setting one cell raises the count of any rank over any window by at
most one. -/
theorem count_set_le (l : List (Option Piece)) (lo n i : Nat) (v : Option Piece) (q : Piece) :
    (List.range n).countP (fun j => decide ((l.set i v).get? (lo + j) = some (some q))) ≤
      (List.range n).countP (fun j => decide (l.get? (lo + j) = some (some q))) + 1 := by
  apply countP_range_agree_except _ _ (i - lo)
  intro j hj
  have hne : i ≠ lo + j := by omega
  rw [List.get?_set_ne _ _ hne]

/-- Clearing one cell never raises the count of any rank over any window. -/
theorem count_set_none_le (l : List (Option Piece)) (lo n i : Nat) (q : Piece) :
    (List.range n).countP (fun j => decide ((l.set i none).get? (lo + j) = some (some q))) ≤
      (List.range n).countP (fun j => decide (l.get? (lo + j) = some (some q))) := by
  apply countP_range_mono
  intro j hp
  by_cases hij : i = lo + j
  · exfalso
    rw [← hij, List.get?_set_eq] at hp
    cases h : l.get? i <;> simp [h] at hp
  · rwa [List.get?_set_ne _ _ hij] at hp

/-- A pairing accepted by can_promote found at most one piece of the
resulting rank in the 16 cells of the mover half of the flat vector. -/
theorem can_promote_ok_zone_count {s : GameState} {m : Move} {newp : Piece}
    (h : can_promote s m = some (.ok newp)) :
    (if s.turn % 2 = 0 then countRange s.board 0 16 newp
     else countRange s.board 16 16 newp) ≤ 1 := by
  unfold can_promote at h
  split at h
  · simp at h
  · simp at h
  · split at h
    · simp at h
    · simp at h
    · split at h
      · simp at h
      · split at h
        · simp at h
        · split at h
          · simp at h
          · split at h
            · rename_i hpar
              split at h
              · simp at h
              · rename_i hcnt
                simp only [Option.some.injEq, RustResult.ok.injEq] at h
                subst h
                rw [if_pos hpar]
                omega
            · rename_i hpar
              split at h
              · simp at h
              · rename_i hcnt
                simp only [Option.some.injEq, RustResult.ok.injEq] at h
                subst h
                rw [if_neg hpar]
                omega

/-- Evaluation of the shared write-back tail: placing v at dst and then
clearing src succeeds on a well-formed board and yields a state whose
destination holds v, whose source is empty, whose turn advanced by one and
whose previous move is the move just played. -/
theorem move_tail_eval (sMid : GameState) (m : Move) (v : Option Piece)
    (hc4 : sMid.board.cols = 4) (hlen : sMid.board.data.length = 32)
    (hsr : m.src.row < 8) (hsc : m.src.col < 4)
    (hdr : m.dst.row < 8) (hdc : m.dst.col < 4)
    (hne : m.src ≠ m.dst) :
    ∃ bFin : Board,
      (match sMid.board.set_piece m.dst v with
        | none => none
        | some b2 => move_tail { sMid with board := b2 } m) =
        some (RustResult.ok (),
          { sMid with
              board := bFin,
              turn := sMid.turn + 1,
              prev_move := some m }) ∧
      bFin.get_piece m.dst = some v ∧
      bFin.get_piece m.src = some none ∧
      bFin.data = (sMid.board.data.set (sMid.board.cols * m.dst.row + m.dst.col)
        v).set (sMid.board.cols * m.src.row + m.src.col) none := by
  have hidxd : sMid.board.cols * m.dst.row + m.dst.col < sMid.board.data.length := by
    rw [hc4, hlen]; exact index_lt_32 hdr hdc
  have hidxs : sMid.board.cols * m.src.row + m.src.col < sMid.board.data.length := by
    rw [hc4, hlen]; exact index_lt_32 hsr hsc
  have hii : sMid.board.cols * m.src.row + m.src.col ≠
      sMid.board.cols * m.dst.row + m.dst.col := by
    rw [hc4]
    intro h
    exact hne (pos_index_inj ⟨hsr, hsc⟩ ⟨hdr, hdc⟩ h)
  refine ⟨{ sMid.board with
      data := (sMid.board.data.set (sMid.board.cols * m.dst.row + m.dst.col)
        v).set (sMid.board.cols * m.src.row + m.src.col) none }, ?_, ?_, ?_, rfl⟩
  · simp only [Board.set_piece]
    rw [if_pos hidxd]
    simp only [move_tail, Board.set_piece, List.length_set]
    rw [if_pos hidxs]
  · simp only [Board.get_piece]
    rw [List.get?_set_ne _ _ hii, List.get?_set_eq_of_lt _ hidxd]
  · simp only [Board.get_piece]
    rw [List.get?_set_eq_of_lt _ (by simpa using hidxs)]

/-- Reduction of move_piece to its opponent-zone branch once every check
before the zone branch has passed and the destination lies in the zone of
the inactive player. -/
theorem move_piece_opponent (s : GameState) (m : Move) (pc : Piece) (dstCell : Option Piece)
    (h32 : ¬m.src.row = 32)
    (hsrc : s.board.get_piece m.src = some (some pc))
    (hzone : s.turn % 2 = get_zone m.src)
    (hne : m.src ≠ m.dst)
    (hundo : undoCheck s.prev_move m = false)
    (hval : pc.validate_move m.src m.dst = .ok ())
    (hcolck : collision_check s.board m = some (.ok ()))
    (hzd : get_zone m.dst ≠ s.turn % 2)
    (hdst : s.board.get_piece m.dst = some dstCell) :
    move_piece s m =
      (let s1 := if s.clock > 0 ∧ dstCell.isSome then { s with clock := 8 } else s
       let s2 :=
         match dstCell with
         | some p =>
           if s1.turn % 2 = 0 then
             { s1 with score1 := s1.score1 + p.points }
           else
             { s1 with score2 := s1.score2 + p.points }
         | none => s1
       match s2.board.set_piece m.dst (some pc) with
       | none => none
       | some b2 => move_tail { s2 with board := b2 } m) := by
  unfold move_piece
  rw [if_neg h32]
  simp only [hsrc]
  rw [if_neg (not_not_intro hzone), if_neg hne, if_neg (by simp [hundo])]
  simp only [hval, hcolck]
  rw [if_pos (Ne.symm hzd)]
  simp only [hdst]

/-- Reduction of move_piece to its promotion write-back once every check
has passed, the destination lies in the active player zone and is
occupied, and can_promote accepted the pairing. -/
theorem move_piece_promotion (s : GameState) (m : Move) (pc dp newp : Piece)
    (h32 : ¬m.src.row = 32)
    (hsrc : s.board.get_piece m.src = some (some pc))
    (hzone : s.turn % 2 = get_zone m.src)
    (hne : m.src ≠ m.dst)
    (hundo : undoCheck s.prev_move m = false)
    (hval : pc.validate_move m.src m.dst = .ok ())
    (hcolck : collision_check s.board m = some (.ok ()))
    (hzd : get_zone m.dst = s.turn % 2)
    (hdst : s.board.get_piece m.dst = some (some dp))
    (hcp : can_promote s m = some (.ok newp)) :
    move_piece s m =
      (match s.board.set_piece m.dst (some newp) with
       | none => none
       | some b2 => move_tail { s with board := b2 } m) := by
  unfold move_piece
  rw [if_neg h32]
  simp only [hsrc]
  rw [if_neg (not_not_intro hzone), if_neg hne, if_neg (by simp [hundo])]
  simp only [hval, hcolck]
  rw [if_neg (not_not_intro hzd.symm)]
  simp only [hdst, hcp]

/-- C1: for every state and every move whose source holds a piece of the
active player, which passes the null-move, undo, shape and path checks,
and whose destination lies in the active player zone and is empty,
move_piece succeeds: the piece relocates unchanged to the destination, the
source cell becomes empty, no promotion occurs, neither score changes, the
clock is untouched, and the turn counter increments by 1. -/
theorem C1_own_zone_empty_relocates (s : GameState) (m : Move) (pc : Piece)
    (hWF : s.WF)
    (hsr : m.src.row < 8) (hsc : m.src.col < 4)
    (hdr : m.dst.row < 8) (hdc : m.dst.col < 4)
    (hsrc : s.board.get_piece m.src = some (some pc))
    (hzone : s.turn % 2 = get_zone m.src)
    (hne : m.src ≠ m.dst)
    (hundo : undoCheck s.prev_move m = false)
    (hval : pc.validate_move m.src m.dst = .ok ())
    (hcolck : collision_check s.board m = some (.ok ()))
    (hzd : get_zone m.dst = s.turn % 2)
    (hdst : s.board.get_piece m.dst = some none) :
    ∃ s', move_piece s m = some (.ok (), s') ∧
      s'.board.get_piece m.dst = some (some pc) ∧
      s'.board.get_piece m.src = some none ∧
      s'.score1 = s.score1 ∧ s'.score2 = s.score2 ∧
      s'.turn = s.turn + 1 ∧ s'.clock = s.clock ∧ s'.prev_move = some m := by
  obtain ⟨hc4, hlen⟩ := hWF
  have h32 : ¬m.src.row = 32 := by omega
  have hidxd : s.board.cols * m.dst.row + m.dst.col < s.board.data.length := by
    rw [hc4, hlen]; exact index_lt_32 hdr hdc
  have hidxs : s.board.cols * m.src.row + m.src.col < s.board.data.length := by
    rw [hc4, hlen]; exact index_lt_32 hsr hsc
  have hii : s.board.cols * m.src.row + m.src.col ≠ s.board.cols * m.dst.row + m.dst.col := by
    rw [hc4]
    intro h
    exact hne (pos_index_inj ⟨hsr, hsc⟩ ⟨hdr, hdc⟩ h)
  refine ⟨{ s with
      board := { s.board with
        data := (s.board.data.set (s.board.cols * m.dst.row + m.dst.col)
          (some pc)).set (s.board.cols * m.src.row + m.src.col) none },
      turn := s.turn + 1, prev_move := some m }, ?_, ?_, ?_, rfl, rfl, rfl, rfl, rfl⟩
  · unfold move_piece
    rw [if_neg h32]
    simp only [hsrc]
    rw [if_neg (not_not_intro hzone)]
    rw [if_neg hne]
    rw [if_neg (by simp [hundo])]
    simp only [hval, hcolck]
    rw [if_neg (not_not_intro hzd.symm)]
    simp only [hdst, Board.set_piece]
    rw [if_pos hidxd]
    simp only [move_tail, Board.set_piece, List.length_set]
    rw [if_pos hidxs]
  · simp only [Board.get_piece]
    rw [List.get?_set_ne _ _ hii, List.get?_set_eq_of_lt _ hidxd]
  · simp only [Board.get_piece]
    rw [List.get?_set_eq_of_lt _ (by simpa using hidxs)]

/-- Witness for C1: in the fresh game player 1 moves the Pawn at (2,1)
one diagonal step to the empty cell (3,0). -/
theorem C1_witness :
    ∃ s', move_piece initial_state { src := ⟨2, 1⟩, dst := ⟨3, 0⟩ } = some (.ok (), s') ∧
      s'.board.get_piece ⟨3, 0⟩ = some (some .Pawn) ∧
      s'.board.get_piece ⟨2, 1⟩ = some none ∧
      s'.score1 = initial_state.score1 ∧ s'.score2 = initial_state.score2 ∧
      s'.turn = initial_state.turn + 1 ∧ s'.clock = initial_state.clock ∧
      s'.prev_move = some { src := ⟨2, 1⟩, dst := ⟨3, 0⟩ } := by
  exact C1_own_zone_empty_relocates initial_state { src := ⟨2, 1⟩, dst := ⟨3, 0⟩ } .Pawn
    ⟨rfl, rfl⟩ (by decide) (by decide) (by decide) (by decide) (by decide) (by decide)
    (by decide) (by decide) (by decide) (by decide) (by decide) (by decide)

/-- C9: for every accepted move into the opponent zone, an occupied
destination raises the active player score (selected by turn parity) by
exactly the captured piece point value and, when the clock is ticking,
resets the clock to 8; an empty destination changes neither score nor
clock; in both cases the moving piece ends at the destination, replacing
any occupant, the source empties, and the turn advances. -/
theorem C9_opponent_zone_capture (s : GameState) (m : Move) (pc : Piece)
    (dstCell : Option Piece)
    (hWF : s.WF)
    (hsr : m.src.row < 8) (hsc : m.src.col < 4)
    (hdr : m.dst.row < 8) (hdc : m.dst.col < 4)
    (hsrc : s.board.get_piece m.src = some (some pc))
    (hzone : s.turn % 2 = get_zone m.src)
    (hne : m.src ≠ m.dst)
    (hundo : undoCheck s.prev_move m = false)
    (hval : pc.validate_move m.src m.dst = .ok ())
    (hcolck : collision_check s.board m = some (.ok ()))
    (hzd : get_zone m.dst ≠ s.turn % 2)
    (hdst : s.board.get_piece m.dst = some dstCell) :
    ∃ s', move_piece s m = some (.ok (), s') ∧
      s'.board.get_piece m.dst = some (some pc) ∧
      s'.board.get_piece m.src = some none ∧
      s'.turn = s.turn + 1 ∧
      s'.prev_move = some m ∧
      (dstCell = none → s'.score1 = s.score1 ∧ s'.score2 = s.score2 ∧ s'.clock = s.clock) ∧
      (∀ p, dstCell = some p →
        (s.turn % 2 = 0 → s'.score1 = s.score1 + p.points ∧ s'.score2 = s.score2) ∧
        (s.turn % 2 ≠ 0 → s'.score2 = s.score2 + p.points ∧ s'.score1 = s.score1) ∧
        (s.clock > 0 → s'.clock = 8) ∧
        (¬s.clock > 0 → s'.clock = s.clock)) := by
  obtain ⟨hc4, hlen⟩ := hWF
  have h32 : ¬m.src.row = 32 := by omega
  have hred := move_piece_opponent s m pc dstCell h32 hsrc hzone hne hundo hval hcolck hzd hdst
  cases dstCell with
  | none =>
    simp only [Option.isSome_none, Bool.false_eq_true, and_false, if_false] at hred
    obtain ⟨bFin, heq, hgd, hgs, _⟩ := move_tail_eval s m (some pc) hc4 hlen hsr hsc hdr hdc hne
    rw [heq] at hred
    exact ⟨_, hred, hgd, hgs, rfl, rfl, fun _ => ⟨rfl, rfl, rfl⟩, fun p hp => by simp at hp⟩
  | some p =>
    simp only [Option.isSome_some, and_true] at hred
    by_cases hclk : s.clock > 0
    · rw [if_pos hclk] at hred
      by_cases hpar : s.turn % 2 = 0
      · rw [if_pos hpar] at hred
        obtain ⟨bFin, heq, hgd, hgs, _⟩ := move_tail_eval
          { s with clock := 8, score1 := s.score1 + p.points } m (some pc)
          hc4 hlen hsr hsc hdr hdc hne
        rw [heq] at hred
        refine ⟨_, hred, hgd, hgs, rfl, rfl, fun hpn => by simp at hpn, ?_⟩
        intro q hq
        obtain rfl : p = q := by injection hq
        exact ⟨fun _ => ⟨rfl, rfl⟩, fun h => absurd hpar h, fun _ => rfl, fun h => absurd hclk h⟩
      · rw [if_neg hpar] at hred
        obtain ⟨bFin, heq, hgd, hgs, _⟩ := move_tail_eval
          { s with clock := 8, score2 := s.score2 + p.points } m (some pc)
          hc4 hlen hsr hsc hdr hdc hne
        rw [heq] at hred
        refine ⟨_, hred, hgd, hgs, rfl, rfl, fun hpn => by simp at hpn, ?_⟩
        intro q hq
        obtain rfl : p = q := by injection hq
        exact ⟨fun h => absurd h hpar, fun _ => ⟨rfl, rfl⟩, fun _ => rfl, fun h => absurd hclk h⟩
    · rw [if_neg hclk] at hred
      by_cases hpar : s.turn % 2 = 0
      · rw [if_pos hpar] at hred
        obtain ⟨bFin, heq, hgd, hgs, _⟩ := move_tail_eval
          { s with score1 := s.score1 + p.points } m (some pc)
          hc4 hlen hsr hsc hdr hdc hne
        rw [heq] at hred
        refine ⟨_, hred, hgd, hgs, rfl, rfl, fun hpn => by simp at hpn, ?_⟩
        intro q hq
        obtain rfl : p = q := by injection hq
        exact ⟨fun _ => ⟨rfl, rfl⟩, fun h => absurd hpar h, fun h => absurd h hclk, fun _ => rfl⟩
      · rw [if_neg hpar] at hred
        obtain ⟨bFin, heq, hgd, hgs, _⟩ := move_tail_eval
          { s with score2 := s.score2 + p.points } m (some pc)
          hc4 hlen hsr hsc hdr hdc hne
        rw [heq] at hred
        refine ⟨_, hred, hgd, hgs, rfl, rfl, fun hpn => by simp at hpn, ?_⟩
        intro q hq
        obtain rfl : p = q := by injection hq
        exact ⟨fun h => absurd h hpar, fun _ => ⟨rfl, rfl⟩, fun h => absurd h hclk, fun _ => rfl⟩

/-- Witness for C9: from c9_state player 1 captures the Drone at (4,3)
with the Pawn at (3,2); the score rises by 2 and the ticking clock resets
to 8. -/
theorem C9_witness :
    ∃ s', move_piece c9_state c9_move = some (.ok (), s') ∧
      s'.board.get_piece ⟨4, 3⟩ = some (some .Pawn) ∧
      s'.board.get_piece ⟨3, 2⟩ = some none ∧
      s'.turn = c9_state.turn + 1 ∧
      s'.prev_move = some c9_move ∧
      (some Piece.Drone = none →
        s'.score1 = c9_state.score1 ∧ s'.score2 = c9_state.score2 ∧ s'.clock = c9_state.clock) ∧
      (∀ p, some Piece.Drone = some p →
        (c9_state.turn % 2 = 0 →
          s'.score1 = c9_state.score1 + p.points ∧ s'.score2 = c9_state.score2) ∧
        (c9_state.turn % 2 ≠ 0 →
          s'.score2 = c9_state.score2 + p.points ∧ s'.score1 = c9_state.score1) ∧
        (c9_state.clock > 0 → s'.clock = 8) ∧
        (¬c9_state.clock > 0 → s'.clock = c9_state.clock)) := by
  exact C9_opponent_zone_capture c9_state c9_move .Pawn (some .Drone) ⟨rfl, rfl⟩
    (by decide) (by decide) (by decide) (by decide) (by decide) (by decide) (by decide)
    (by decide) (by decide) (by decide) (by decide) (by decide)

/-- C5 counterexample: the claim says that immediately after any accepted
promotion the mover zone holds at most 1 piece of the resulting rank.  In
c5_state one Queen is already in zone 0, the zone-count check of
can_promote only rejects when 2 or more are present, so the Pawn takes
the Drone, promotes to Queen, and zone 0 then holds 2 Queens. -/
theorem C5_counterexample :
    move_piece c5_state c5_move = some (.ok (), c5_after) ∧
      countRange c5_after.board 0 16 .Queen = 2 ∧
      ¬countRange c5_after.board 0 16 .Queen ≤ 1 := by
  refine ⟨by decide, by decide, by decide⟩

/-- C5 amended: immediately after any accepted promotion move the count of
pieces of the resulting rank within the 16-cell half of the mover is at
most 2, not 1: the zone check of can_promote rejects only when two or more
pieces of the resulting rank are already present before the placement. -/
theorem C5_zone_count_after_promotion (s : GameState) (m : Move) (pc dp newp : Piece)
    (hWF : s.WF)
    (hsr : m.src.row < 8) (hsc : m.src.col < 4)
    (hdr : m.dst.row < 8) (hdc : m.dst.col < 4)
    (hsrc : s.board.get_piece m.src = some (some pc))
    (hzone : s.turn % 2 = get_zone m.src)
    (hne : m.src ≠ m.dst)
    (hundo : undoCheck s.prev_move m = false)
    (hval : pc.validate_move m.src m.dst = .ok ())
    (hcolck : collision_check s.board m = some (.ok ()))
    (hzd : get_zone m.dst = s.turn % 2)
    (hdst : s.board.get_piece m.dst = some (some dp))
    (hcp : can_promote s m = some (.ok newp)) :
    ∃ s', move_piece s m = some (.ok (), s') ∧
      (if s.turn % 2 = 0 then countRange s'.board 0 16 newp
       else countRange s'.board 16 16 newp) ≤ 2 := by
  obtain ⟨hc4, hlen⟩ := hWF
  have h32 : ¬m.src.row = 32 := by omega
  have hred := move_piece_promotion s m pc dp newp h32 hsrc hzone hne hundo hval hcolck hzd
    hdst hcp
  obtain ⟨bFin, heq, _, _, hdata⟩ := move_tail_eval s m (some newp) hc4 hlen hsr hsc hdr hdc hne
  rw [heq] at hred
  refine ⟨_, hred, ?_⟩
  dsimp only
  have hcnt := can_promote_ok_zone_count hcp
  have hbound : ∀ lo : Nat, countRange bFin lo 16 newp ≤ countRange s.board lo 16 newp + 1 := by
    intro lo
    unfold countRange
    rw [hdata]
    calc
      (List.range 16).countP (fun j => decide
          (((s.board.data.set (s.board.cols * m.dst.row + m.dst.col) (some newp)).set
            (s.board.cols * m.src.row + m.src.col) none).get? (lo + j) = some (some newp))) ≤
          (List.range 16).countP (fun j => decide
            ((s.board.data.set (s.board.cols * m.dst.row + m.dst.col) (some newp)).get?
              (lo + j) = some (some newp))) :=
        count_set_none_le _ lo 16 _ newp
      _ ≤ (List.range 16).countP
            (fun j => decide (s.board.data.get? (lo + j) = some (some newp))) + 1 :=
        count_set_le _ lo 16 _ (some newp) newp
  by_cases hpar : s.turn % 2 = 0
  · rw [if_pos hpar]
    rw [if_pos hpar] at hcnt
    have := hbound 0
    omega
  · rw [if_neg hpar]
    rw [if_neg hpar] at hcnt
    have := hbound 16
    omega

/-- Witness for C5 amended at the c5_state promotion; the bound 2 is
attained there. -/
theorem C5_witness :
    ∃ s', move_piece c5_state c5_move = some (.ok (), s') ∧
      (if c5_state.turn % 2 = 0 then countRange s'.board 0 16 .Queen
       else countRange s'.board 16 16 .Queen) ≤ 2 := by
  exact C5_zone_count_after_promotion c5_state c5_move .Pawn .Drone .Queen ⟨rfl, rfl⟩
    (by decide) (by decide) (by decide) (by decide) (by decide) (by decide) (by decide)
    (by decide) (by decide) (by decide) (by decide) (by decide) (by decide)

/-- C6 counterexample: the claim says the reversal of lastMove = (A1,B2)
is rejected with the undo error regardless of zone validity; but the
zone-of-control check runs before the undo check, so in the very state
reached after playing A1 to B2 (turn odd, B2 in zone 0) the reversal is
rejected with the zone error instead. -/
theorem C6_counterexample :
    move_piece
        { initial_state with
            prev_move := some { src := ⟨0, 0⟩, dst := ⟨1, 1⟩ }, turn := 1 }
        { src := ⟨1, 1⟩, dst := ⟨0, 0⟩ } =
      some (.err "Source Position is not in Player zone of control",
        { initial_state with
            prev_move := some { src := ⟨0, 0⟩, dst := ⟨1, 1⟩ }, turn := 1 }) ∧
      "Source Position is not in Player zone of control" ≠
        "Cannot use your move to undo previous move" := by
  refine ⟨by decide, by decide⟩

/-- C6 amended: with lastMove = (A1,B2), submitting (B2,A1) never
succeeds: it is always rejected with some error and the state is
unchanged; the error is the undo rejection exactly when the checks that
run first pass, that is when B2 is occupied and belongs to the active
player (turn even); the shape check indeed never matters, since the undo
check runs before it. -/
theorem C6_reverse_move_always_rejected (s : GameState)
    (hWF : s.WF)
    (hprev : s.prev_move = some { src := ⟨0, 0⟩, dst := ⟨1, 1⟩ }) :
    (∃ e, move_piece s { src := ⟨1, 1⟩, dst := ⟨0, 0⟩ } = some (.err e, s)) ∧
      (∀ pc : Piece, s.turn % 2 = 0 →
        s.board.get_piece ⟨1, 1⟩ = some (some pc) →
        move_piece s { src := ⟨1, 1⟩, dst := ⟨0, 0⟩ } =
          some (.err "Cannot use your move to undo previous move", s)) := by
  obtain ⟨hc4, hlen⟩ := hWF
  have hmain : ∀ pc : Piece, s.turn % 2 = 0 →
      s.board.get_piece ⟨1, 1⟩ = some (some pc) →
      move_piece s { src := ⟨1, 1⟩, dst := ⟨0, 0⟩ } =
        some (.err "Cannot use your move to undo previous move", s) := by
    intro pc hpar hp
    unfold move_piece
    dsimp only
    rw [if_neg (by decide : ¬(1 = 32))]
    simp only [hp]
    rw [show get_zone ⟨1, 1⟩ = 0 from rfl]
    rw [if_neg (not_not_intro hpar)]
    rw [if_neg (by decide : ¬({ row := 1, col := 1 } : Position) = { row := 0, col := 0 })]
    rw [hprev]
    rw [if_pos (by decide)]
  refine ⟨?_, hmain⟩
  have hidx : s.board.cols * 1 + 1 < s.board.data.length := by rw [hc4, hlen]; omega
  obtain ⟨cell, hcell⟩ : ∃ c, s.board.data.get? (s.board.cols * 1 + 1) = some c :=
    ⟨_, List.get?_eq_get hidx⟩
  have hget : s.board.get_piece ⟨1, 1⟩ = some cell := hcell
  cases cell with
  | none =>
    refine ⟨"No piece at source position", ?_⟩
    unfold move_piece
    dsimp only
    rw [if_neg (by decide : ¬(1 = 32))]
    simp only [hget]
  | some pc =>
    by_cases hpar : s.turn % 2 = 0
    · exact ⟨_, hmain pc hpar hget⟩
    · refine ⟨"Source Position is not in Player zone of control", ?_⟩
      unfold move_piece
      dsimp only
      rw [if_neg (by decide : ¬(1 = 32))]
      simp only [hget]
      rw [show get_zone ⟨1, 1⟩ = 0 from rfl]
      rw [if_pos hpar]

/-- Witness for C6 amended: in a fresh game with lastMove set to (A1,B2)
and player 1 to move, the reversal is rejected with the undo error. -/
theorem C6_witness :
    move_piece { initial_state with prev_move := some { src := ⟨0, 0⟩, dst := ⟨1, 1⟩ } }
        { src := ⟨1, 1⟩, dst := ⟨0, 0⟩ } =
      some (.err "Cannot use your move to undo previous move",
        { initial_state with prev_move := some { src := ⟨0, 0⟩, dst := ⟨1, 1⟩ } }) := by
  exact (C6_reverse_move_always_rejected
      { initial_state with prev_move := some { src := ⟨0, 0⟩, dst := ⟨1, 1⟩ } }
      ⟨rfl, rfl⟩ rfl).2 .Drone (by decide) (by decide)

/-- C7: atomicity and idempotence of rejection: whenever move_piece
returns an error, the state it returns is exactly the state it was given
(board, turn, scores, previous move and clock all unchanged), and the same
call on that state yields the same error with the state again unchanged;
move_piece is a pure function, so the second call is literally the same
value. -/
theorem C7_rejection_preserves_state (s : GameState) (m : Move) (e : String) (s' : GameState)
    (h : move_piece s m = some (.err e, s')) :
    s' = s ∧ move_piece s m = some (.err e, s) := by
  have hs : s' = s := by
    unfold move_piece at h
    repeat' (first | split at h | dsimp only at h)
    all_goals try (unfold move_tail at h; repeat' split at h)
    all_goals first
      | (simp only [Option.some.injEq, Prod.mk.injEq] at h; exact h.2.symm)
      | simp at h
  subst hs
  exact ⟨rfl, h⟩

/-- Witness for C7: the null move at the origin square is rejected in the
fresh game and leaves the state unchanged. -/
theorem C7_witness :
    initial_state = initial_state ∧
      move_piece initial_state { src := ⟨0, 0⟩, dst := ⟨0, 0⟩ } =
        some (.err "Must move piece to location different from starting location",
          initial_state) := by
  exact C7_rejection_preserves_state initial_state { src := ⟨0, 0⟩, dst := ⟨0, 0⟩ }
    "Must move piece to location different from starting location" initial_state (by decide)

/-- The write-back match at the end of both accepted branches returns a
value on a well-formed board with on-board positions. -/
theorem tail_match_isSome (sMid : GameState) (m : Move) (v : Option Piece)
    (hc4 : sMid.board.cols = 4) (hlen : sMid.board.data.length = 32)
    (hsr : m.src.row < 8) (hsc : m.src.col < 4)
    (hdr : m.dst.row < 8) (hdc : m.dst.col < 4)
    (hne : m.src ≠ m.dst) :
    (match sMid.board.set_piece m.dst v with
      | none => none
      | some b2 => move_tail { sMid with board := b2 } m).isSome := by
  obtain ⟨bFin, heq, _, _, _⟩ := move_tail_eval sMid m v hc4 hlen hsr hsc hdr hdc hne
  rw [heq]
  rfl

/-- can_promote never panics on a well-formed board with on-board
positions: every outcome is an ordinary value. -/
theorem can_promote_isSome (s : GameState) (m : Move)
    (hc4 : s.board.cols = 4) (hlen : s.board.data.length = 32)
    (hsr : m.src.row < 8) (hsc : m.src.col < 4)
    (hdr : m.dst.row < 8) (hdc : m.dst.col < 4) :
    (can_promote s m).isSome := by
  have hidxs : s.board.cols * m.src.row + m.src.col < s.board.data.length := by
    rw [hc4, hlen]; exact index_lt_32 hsr hsc
  have hidxd : s.board.cols * m.dst.row + m.dst.col < s.board.data.length := by
    rw [hc4, hlen]; exact index_lt_32 hdr hdc
  obtain ⟨c1, hc1⟩ : ∃ c, s.board.get_piece m.src = some c := ⟨_, List.get?_eq_get hidxs⟩
  obtain ⟨c2, hc2⟩ : ∃ c, s.board.get_piece m.dst = some c := ⟨_, List.get?_eq_get hidxd⟩
  unfold can_promote
  simp only [hc1]
  cases c1 with
  | none => rfl
  | some sp =>
    simp only [hc2]
    cases c2 with
    | none => rfl
    | some dp =>
      cases hv : sp.promote dp with
      | ok np =>
        simp only [hv]
        rw [hlen, if_neg (by omega)]
        split
        · rfl
        · split <;> split <;> rfl
      | err e =>
        simp only [hv, Option.isSome_some]

/-- C8 counterexample: the claim says move_piece is total, never
panicking, even on positions outside the 8 by 4 board; but reading the
source cell indexes the backing vector directly, so a source such as
(10,0), which is not the sentinel row 32, indexes cell 40 of a 32-cell
vector and panics (modelled as none). -/
theorem C8_counterexample :
    move_piece initial_state { src := ⟨10, 0⟩, dst := ⟨11, 1⟩ } = none ∧
      (10 : Nat) ≠ 32 := by
  refine ⟨by decide, by decide⟩

/-- C8 amended: move_piece returns a value (a mutated state or an error,
never a panic) for every well-formed state and every move that is either
the clock-start sentinel or lies entirely on the 8 by 4 board; these are
exactly the moves the parser can produce.  Out-of-range positions beyond
the sentinel row panic on the vector access. -/
theorem C8_total_on_board_moves (s : GameState) (m : Move)
    (hWF : s.WF)
    (hm : m.src.row = 32 ∨
      (m.src.row < 8 ∧ m.src.col < 4 ∧ m.dst.row < 8 ∧ m.dst.col < 4)) :
    (move_piece s m).isSome := by
  obtain ⟨hc4, hlen⟩ := hWF
  rcases hm with hsent | ⟨hsr, hsc, hdr, hdc⟩
  · unfold move_piece
    rw [if_pos hsent]
    split
    · rfl
    · rfl
  · have h32 : ¬m.src.row = 32 := by omega
    have hidxs : s.board.cols * m.src.row + m.src.col < s.board.data.length := by
      rw [hc4, hlen]; exact index_lt_32 hsr hsc
    have hidxd : s.board.cols * m.dst.row + m.dst.col < s.board.data.length := by
      rw [hc4, hlen]; exact index_lt_32 hdr hdc
    obtain ⟨cell, hcell⟩ : ∃ c, s.board.get_piece m.src = some c :=
      ⟨_, List.get?_eq_get hidxs⟩
    obtain ⟨cell2, hcell2⟩ : ∃ c, s.board.get_piece m.dst = some c :=
      ⟨_, List.get?_eq_get hidxd⟩
    unfold move_piece
    rw [if_neg h32]
    cases cell with
    | none =>
      simp only [hcell]
      rfl
    | some pc =>
      simp only [hcell]
      by_cases hz : s.turn % 2 ≠ get_zone m.src
      · rw [if_pos hz]
        rfl
      · rw [if_neg hz]
        by_cases hnull : m.src = m.dst
        · rw [if_pos hnull]
          rfl
        · rw [if_neg hnull]
          by_cases hundo : undoCheck s.prev_move m = true
          · rw [if_pos hundo]
            rfl
          · rw [if_neg hundo]
            cases hv : pc.validate_move m.src m.dst with
            | err e => simp only [hv, Option.isSome_some]
            | ok u =>
              cases u
              simp only [hv]
              have hcolsome := collision_check_isSome hc4 hlen hsr hsc hdr hdc hnull hv
              obtain ⟨r, hr⟩ := Option.isSome_iff_exists.mp hcolsome
              simp only [hr]
              cases r with
              | err e => rfl
              | ok u =>
                cases u
                by_cases hzd : s.turn % 2 ≠ get_zone m.dst
                · rw [if_pos hzd]
                  simp only [hcell2]
                  cases cell2 with
                  | none =>
                    simp only [Option.isSome_none, Bool.false_eq_true, and_false, if_false]
                    exact tail_match_isSome s m (some pc) hc4 hlen hsr hsc hdr hdc hnull
                  | some p =>
                    simp only [Option.isSome_some, and_true]
                    by_cases hclk : s.clock > 0
                    · rw [if_pos hclk]
                      by_cases hpar : s.turn % 2 = 0
                      · rw [if_pos hpar]
                        exact tail_match_isSome
                          { s with clock := 8, score1 := s.score1 + p.points } m (some pc)
                          hc4 hlen hsr hsc hdr hdc hnull
                      · rw [if_neg hpar]
                        exact tail_match_isSome
                          { s with clock := 8, score2 := s.score2 + p.points } m (some pc)
                          hc4 hlen hsr hsc hdr hdc hnull
                    · rw [if_neg hclk]
                      by_cases hpar : s.turn % 2 = 0
                      · rw [if_pos hpar]
                        exact tail_match_isSome
                          { s with score1 := s.score1 + p.points } m (some pc)
                          hc4 hlen hsr hsc hdr hdc hnull
                      · rw [if_neg hpar]
                        exact tail_match_isSome
                          { s with score2 := s.score2 + p.points } m (some pc)
                          hc4 hlen hsr hsc hdr hdc hnull
                · rw [if_neg hzd]
                  simp only [hcell2]
                  cases cell2 with
                  | none =>
                    exact tail_match_isSome s m (some pc) hc4 hlen hsr hsc hdr hdc hnull
                  | some dp =>
                    have hcp := can_promote_isSome s m hc4 hlen hsr hsc hdr hdc
                    obtain ⟨r2, hr2⟩ := Option.isSome_iff_exists.mp hcp
                    simp only [hr2]
                    cases r2 with
                    | err e => rfl
                    | ok np =>
                      exact tail_match_isSome s m (some np) hc4 hlen hsr hsc hdr hdc hnull

/-- Witness for C8 amended: a fully on-board (if illegal) move in the
fresh game gets an ordinary result, not a panic. -/
theorem C8_witness :
    (move_piece initial_state { src := ⟨0, 0⟩, dst := ⟨3, 3⟩ }).isSome := by
  exact C8_total_on_board_moves initial_state { src := ⟨0, 0⟩, dst := ⟨3, 3⟩ }
    ⟨rfl, rfl⟩ (Or.inr (by decide))

/-- C2: evaluation of the promotion pairing.  The library table
pieces.rs maps Pawn+Pawn to Pawn, not to Drone as the claim states (the
standalone main.rs table does map Pawn+Pawn to Drone); every other entry
of the library table matches the claim.  Downstream, an own-zone
Pawn-onto-Pawn move in the fresh game is consequently rejected by the
board-wide count check (the "promoted" rank Pawn already has 6 pieces on
the board) instead of leaving a Drone. -/
theorem C2_promotion_table_eval :
    Piece.promote .Pawn .Pawn = .ok .Pawn ∧
      (RustResult.ok Piece.Pawn : RustResult Piece) ≠ .ok .Drone ∧
      main_promotion_result .Pawn .Pawn = .ok .Drone ∧
      Piece.promote .Pawn .Drone = .ok .Queen ∧
      Piece.promote .Drone .Pawn = .ok .Queen ∧
      Piece.promote .Drone .Drone = .err "Cannot promote Drone with a Drone" ∧
      Piece.promote .Pawn .Queen = .err "Cannot promote Queen." ∧
      Piece.promote .Drone .Queen = .err "Cannot promote Queen." ∧
      Piece.promote .Queen .Pawn = .err "Cannot promote Queen." ∧
      Piece.promote .Queen .Drone = .err "Cannot promote Queen." ∧
      Piece.promote .Queen .Queen = .err "Cannot promote Queen." ∧
      move_piece initial_state { src := ⟨2, 1⟩, dst := ⟨1, 2⟩ } =
        some (.err "Cannot have more than 6 of one piece on the board", initial_state) := by
  refine ⟨rfl, by decide, rfl, rfl, rfl, rfl, rfl, rfl, rfl, rfl, rfl, by decide⟩

end MartianChess
